import Mathlib

/-!
Verification of the Game Session Controller of the Stockfish trainer
(`src/stockfish_trainer/gui.py`, helpers in `src/stockfish_trainer/utils.py`).

The controller delegates move legality, side to move and terminal detection
to the external `python-chess` library (`self.board`), which is not part of
this repository.  A `chess.Board` is a deterministic function of its move
stack (the GUI always builds it by `reset()` followed by `push` calls), so a
position is embedded as the list of moves played from the initial position,
and the external rules oracle is a structure of functions over that list.
The session state mirrors the `ChessGUI` fields that the controller logic
reads and writes; purely visual fields (selected square, hint arrow, status
strings, canvas) are omitted.  `master.after(...)` callbacks that would
perform an engine query are not run inline: each transition function
returns, next to the new state, the number of engine requests it scheduled.
-/

/-- `clamp` from `src/stockfish_trainer/utils.py` lines 20-21:
`return max(vmin, min(v, vmax))`. -/
def clamp (v vmin vmax : Int) : Int := max vmin (min v vmax)

/-- The external rules oracle (`python-chess`): legality of a move after a
given history, side to move after a history (`board.turn == chess.WHITE`),
and terminal detection (`board.is_game_over()`). -/
structure Rules (M : Type) where
  legalStep : List M → M → Bool
  whiteToMove : List M → Bool
  gameOver : List M → Bool

/-- The session state: the `ChessGUI` fields used by the controller.
`moves` is `self.board.move_stack`, `redo` is `self.move_stack_for_redo`
(top of the stack = last element of the list), times are in seconds. -/
structure Session (M : Type) where
  moves : List M
  gameActive : Bool
  autoMode : Bool
  playerWhite : Bool
  lastMove : Option M
  redo : List M
  timeWhite : Int
  timeBlack : Int
  increment : Int
  clockRunning : Bool
  trainingActive : Bool
  trainingLine : List M
  trainingIndex : Nat
  autoWhiteElo : Int
  autoBlackElo : Int
deriving Repr, DecidableEq

/-- Configuration read from the UI variables when a game is started. -/
structure Config (M : Type) where
  timeMinutesVar : Int
  incrementVar : Int
  colorWhite : Bool
  trainingModeVar : Bool
  openingMoves : List M
  autoWhiteEloVar : Int
  autoBlackEloVar : Int

/-- A message drained from `self.engine_queue` (gui.py lines 1209, 1211,
1754, 1756): a two-field tagged message with no generation/staleness key. -/
inductive EngineMsg (M : Type) where
  | moveManual (mv : M)
  | moveAuto (mv : M)
  | error
deriving Repr, DecidableEq

/-- The clock-increment block that precedes a push (gui.py lines 1165-1168,
1221-1224, 1237-1240 and 884-888): add `increment` to the side to move when
`increment > 0`.  The two source branches (`turn == WHITE and increment > 0`
/ `turn == BLACK and increment > 0`) are mutually exclusive, so they are
written as two independent field updates. -/
def addIncrement {M : Type} (R : Rules M) (s : Session M) : Session M :=
  { s with
    timeWhite :=
      if R.whiteToMove s.moves && decide (0 < s.increment) then
        s.timeWhite + s.increment
      else s.timeWhite,
    timeBlack :=
      if !(R.whiteToMove s.moves) && decide (0 < s.increment) then
        s.timeBlack + s.increment
      else s.timeBlack }

/-- `stop_auto_game` (gui.py lines 1731-1737): clears `auto_mode`
(the `after`-job cancellation and button re-enabling are UI only). -/
def stop_auto_game {M : Type} (s : Session M) : Session M :=
  { s with autoMode := false }

/-- `end_game` (gui.py lines 1666-1700): deactivates the game, stops the
clock, stops auto mode and training (statistics are external persistence). -/
def end_game {M : Type} (s : Session M) : Session M :=
  { s with gameActive := false, clockRunning := false, autoMode := false,
           trainingActive := false }

/-- `flag_time` (gui.py lines 1465-1483): the flagged game ends
(`game_active = False`, auto stopped, clock stopped; statistics external). -/
def flag_time {M : Type} (s : Session M) : Session M :=
  { s with gameActive := false, autoMode := false, clockRunning := false }

/-- `tick_clock` (gui.py lines 1451-1463): when running and active,
decrement the side to move by 1 floored at 0, and flag on reaching 0. -/
def tick_clock {M : Type} (R : Rules M) (s : Session M) : Session M :=
  if !s.clockRunning || !s.gameActive then s
  else if R.whiteToMove s.moves then
    if max 0 (s.timeWhite - 1) = 0 then
      flag_time { s with timeWhite := max 0 (s.timeWhite - 1) }
    else { s with timeWhite := max 0 (s.timeWhite - 1) }
  else
    if max 0 (s.timeBlack - 1) = 0 then
      flag_time { s with timeBlack := max 0 (s.timeBlack - 1) }
    else { s with timeBlack := max 0 (s.timeBlack - 1) }

/-- `start_clock` (gui.py lines 1440-1442): sets the running flag and then
calls `tick_clock()` synchronously, so one tick fires immediately. -/
def start_clock {M : Type} (R : Rules M) (s : Session M) : Session M :=
  tick_clock R { s with clockRunning := true }

/-- `finish_training_mode(success=False, ...)` (gui.py lines 898-927,
failure branch): deactivate training; messages are UI only. -/
def finishTrainingFailure {M : Type} (s : Session M) : Session M :=
  { s with trainingActive := false }

/-- `finish_training_mode(success=True)` (gui.py lines 898-917): when
training is active, deactivate it and — if the engine is ready, the game is
not over, not in auto mode and it is not the human's turn — schedule one
engine request (`after(600, stockfish_move_once_for_manual)`).  The second
component counts scheduled engine requests. -/
def finishTrainingSuccess {M : Type} (R : Rules M) (ready : Bool)
    (s : Session M) : Session M × Nat :=
  if s.trainingActive then
    let s1 := { s with trainingActive := false }
    if ready && !R.gameOver s1.moves && !s1.autoMode
        && (R.whiteToMove s1.moves != s1.playerWhite) then (s1, 1)
    else (s1, 0)
  else (s, 0)

/-- The `while` loop of `play_training_moves_until_player_turn` (gui.py
lines 879-891), written with fuel (each iteration advances
`training_index`, so `len(line) - index` fuel runs the loop to completion).
The loop condition is the conjunction at line 879; its bound justifies the
indexed access `self.training_line[self.training_index]`.  Loop body: read
`line[index]`; if it is not legal, finish with failure and return;
otherwise apply the increment, push the move, record it as last move and
advance the cursor.  The loop consults no engine. -/
def playTrainingLoop {M : Type} (R : Rules M) :
    Nat → Session M → Session M
  | 0, s => s
  | Nat.succ fuel, s =>
    if h : s.trainingActive = true ∧ s.trainingIndex < s.trainingLine.length
        ∧ R.whiteToMove s.moves ≠ s.playerWhite then
      if R.legalStep s.moves (s.trainingLine.get ⟨s.trainingIndex, h.2.1⟩) then
        playTrainingLoop R fuel
          { addIncrement R s with
              moves := (addIncrement R s).moves
                  ++ [s.trainingLine.get ⟨s.trainingIndex, h.2.1⟩],
              lastMove := some (s.trainingLine.get ⟨s.trainingIndex, h.2.1⟩),
              trainingIndex := (addIncrement R s).trainingIndex + 1 }
      else finishTrainingFailure s
    else s

/-- `play_training_moves_until_player_turn` (gui.py lines 876-896): run the
loop, then — if training is still active and the game is over or the line
is exhausted — `finish_training_mode(success=True)`.  Second component:
number of engine requests scheduled. -/
def play_training_moves_until_player_turn {M : Type} (R : Rules M)
    (ready : Bool) (s : Session M) : Session M × Nat :=
  if !s.trainingActive then (s, 0)
  else if (playTrainingLoop R (s.trainingLine.length - s.trainingIndex)
          s).trainingActive
      && (R.gameOver (playTrainingLoop R
            (s.trainingLine.length - s.trainingIndex) s).moves
        || decide ((playTrainingLoop R
              (s.trainingLine.length - s.trainingIndex) s).trainingLine.length
            ≤ (playTrainingLoop R (s.trainingLine.length - s.trainingIndex)
                s).trainingIndex)) then
    finishTrainingSuccess R ready
      (playTrainingLoop R (s.trainingLine.length - s.trainingIndex) s)
  else (playTrainingLoop R (s.trainingLine.length - s.trainingIndex) s, 0)

/-- The state right after the commit block of `make_move` (gui.py lines
1165-1176): increment for the side to move, push, record last move, clear
the redo stack, and advance the training cursor exactly when this was the
expected training move (`if training_player_move: self.training_index += 1`,
written arithmetically). -/
def commitState {M : Type} (R : Rules M) (mv : M)
    (trainingPlayerMove : Bool) (s : Session M) : Session M :=
  { addIncrement R s with
      moves := (addIncrement R s).moves ++ [mv],
      lastMove := some mv,
      redo := [],
      trainingIndex := (addIncrement R s).trainingIndex
          + (if trainingPlayerMove then 1 else 0) }

/-- The commit path of `make_move` (gui.py lines 1165-1196): build the
committed state, then dispatch (lines 1178-1196): training continuation or
terminal detection, or — outside training — terminal detection or an
engine request when it is now not the human's turn. -/
def commitMove {M : Type} (R : Rules M) (ready : Bool) (mv : M)
    (trainingPlayerMove : Bool) (s : Session M) : Session M × Nat :=
  if (commitState R mv trainingPlayerMove s).trainingActive then
    if R.gameOver (commitState R mv trainingPlayerMove s).moves then
      finishTrainingSuccess R ready (commitState R mv trainingPlayerMove s)
    else play_training_moves_until_player_turn R ready
      (commitState R mv trainingPlayerMove s)
  else if R.gameOver (commitState R mv trainingPlayerMove s).moves then
    (end_game (commitState R mv trainingPlayerMove s), 0)
  else if R.whiteToMove (commitState R mv trainingPlayerMove s).moves
      != (commitState R mv trainingPlayerMove s).playerWhite then
    (commitState R mv trainingPlayerMove s, 1)
  else (commitState R mv trainingPlayerMove s, 0)

/-- `make_move` (gui.py lines 1145-1196).  In training mode on the human's
turn: the expected move is `line[index]` when `index < len(line)` and
`None` otherwise (line 1148).  If it is `None` (line exhausted), finish
training and possibly prompt the engine (lines 1149-1154); if the move
differs from the expected move, reject with a warning and no state change
(lines 1155-1162); otherwise commit as a training player move.  Outside
that guard, commit directly. -/
def make_move {M : Type} [DecidableEq M] (R : Rules M) (ready : Bool)
    (mv : M) (s : Session M) : Session M × Nat :=
  if s.trainingActive && (R.whiteToMove s.moves == s.playerWhite) then
    if h : s.trainingIndex < s.trainingLine.length then
      if mv = s.trainingLine.get ⟨s.trainingIndex, h⟩ then
        commitMove R ready mv true s
      else (s, 0)
    else
      ((finishTrainingSuccess R ready s).1,
        (finishTrainingSuccess R ready s).2
          + (if ready
              && !R.gameOver (finishTrainingSuccess R ready s).1.moves
              && !(finishTrainingSuccess R ready s).1.autoMode
              && (R.whiteToMove (finishTrainingSuccess R ready s).1.moves
                  != (finishTrainingSuccess R ready s).1.playerWhite)
            then 1 else 0))
  else commitMove R ready mv false s

/-- The move-submission funnel of `on_canvas_click` (gui.py lines
1089-1092 and 1119-1122): ignore the click unless a game is active, not in
auto mode and it is the human's turn; then `make_move` only if the move is
in the current legal-move set, otherwise warn and change nothing. -/
def submitHumanMove {M : Type} [DecidableEq M] (R : Rules M) (ready : Bool)
    (mv : M) (s : Session M) : Session M × Nat :=
  if !s.gameActive || s.autoMode then (s, 0)
  else if R.whiteToMove s.moves != s.playerWhite then (s, 0)
  else if R.legalStep s.moves mv then make_move R ready mv s
  else (s, 0)

/-- The state after a drained engine move has been pushed (gui.py lines
1226-1227 / 1242-1243): the increment was already applied, the move is
pushed and recorded as last move. -/
def appliedResponse {M : Type} (R : Rules M) (mv : M) (s : Session M) :
    Session M :=
  { addIncrement R s with
      moves := (addIncrement R s).moves ++ [mv],
      lastMove := some mv }

/-- Handling of one message drained from `self.engine_queue` by
`process_engine_queue` (gui.py lines 1215-1256).  Note: for both move
variants the increment is applied before the legality check, and no
generation or `game_active` check guards the application; the second
component counts `schedule_next_auto_move` requests. -/
def process_engine_queue {M : Type} (R : Rules M) (msg : EngineMsg M)
    (s : Session M) : Session M × Nat :=
  match msg with
  | EngineMsg.moveManual mv =>
    if R.legalStep (addIncrement R s).moves mv then
      if R.gameOver (appliedResponse R mv s).moves then
        (end_game (appliedResponse R mv s), 0)
      else (appliedResponse R mv s, 0)
    else (addIncrement R s, 0)
  | EngineMsg.moveAuto mv =>
    if R.legalStep (addIncrement R s).moves mv then
      if R.gameOver (appliedResponse R mv s).moves
          || !(appliedResponse R mv s).autoMode then
        (end_game (stop_auto_game (appliedResponse R mv s)), 0)
      else (appliedResponse R mv s, 1)
    else (stop_auto_game (addIncrement R s), 0)
  | EngineMsg.error => (stop_auto_game s, 0)

/-- `undo_move` (gui.py lines 1370-1377): no-op on empty history or in auto
mode (`if not self.board.move_stack or self.auto_mode: return`); otherwise
pop the last move onto the redo stack and reset `last_move` to the new top
of the history. -/
def undo_move {M : Type} [DecidableEq M] (s : Session M) : Session M :=
  if h : s.moves = [] ∨ s.autoMode = true then s
  else
    { s with moves := s.moves.dropLast,
             redo := s.redo ++ [s.moves.getLast (not_or.mp h).1],
             lastMove := s.moves.dropLast.getLast? }

/-- `redo_move` (gui.py lines 1379-1387): no-op on empty redo stack or in
auto mode; otherwise pop the top redo entry first, then re-push it only if
it is legal in the current position (the pop happens either way). -/
def redo_move {M : Type} [DecidableEq M] (R : Rules M) (s : Session M) : Session M :=
  if h : s.redo = [] ∨ s.autoMode = true then s
  else if R.legalStep s.moves (s.redo.getLast (not_or.mp h).1) then
    { s with moves := s.moves ++ [s.redo.getLast (not_or.mp h).1],
             lastMove := some (s.redo.getLast (not_or.mp h).1),
             redo := s.redo.dropLast }
  else { s with redo := s.redo.dropLast }

/-- Legality of a move sequence played from history `h`, one move after the
other — the check `initialize_training_line` performs on a fresh
`preview_board` (gui.py lines 851-858), and the invariant maintained on
`board.move_stack` by the legality checks at every push site. -/
def lineValid {M : Type} (R : Rules M) : List M → List M → Bool
  | _, [] => true
  | h, m :: rest => R.legalStep h m && lineValid R (h ++ [m]) rest

/-- The session state after the reset-and-clamp block of `start_new_game`
(gui.py lines 1597-1615): auto mode stopped if it was on, minutes clamped
to [1, 180] and both clocks set from them, increment clamped to [0, 60],
board reset, session activated as a manual game, redo stack and training
state cleared. -/
def freshSession {M : Type} (cfg : Config M) (s : Session M) : Session M :=
  { (if s.autoMode then stop_auto_game s else s) with
      timeWhite := 60 * clamp cfg.timeMinutesVar 1 180,
      timeBlack := 60 * clamp cfg.timeMinutesVar 1 180,
      increment := clamp cfg.incrementVar 0 60,
      moves := [], gameActive := true, autoMode := false,
      playerWhite := cfg.colorWhite, lastMove := none, redo := [],
      trainingActive := false, trainingLine := [], trainingIndex := 0 }

/-- `start_new_game` (gui.py lines 1590-1647).  Returns `none` when the
start is refused (engine unavailable and no training line requested).
Otherwise: reset and clamp (`freshSession`); when training is requested,
validate the line on a fresh scratch position (`initialize_training_line`,
gui.py lines 844-867 — an invalid line falls back to free mode); start the
clock (which ticks once synchronously); and finally auto-play leading
training moves, or schedule an engine request when the human plays
Black. -/
def start_new_game {M : Type} (R : Rules M) (ready : Bool) (cfg : Config M)
    (s : Session M) : Option (Session M × Nat) :=
  if !ready && !(cfg.trainingModeVar && !cfg.openingMoves.isEmpty) then none
  else if cfg.trainingModeVar && !cfg.openingMoves.isEmpty
      && lineValid R [] cfg.openingMoves then
    some (play_training_moves_until_player_turn R ready
      (start_clock R
        { freshSession cfg s with
            trainingLine := cfg.openingMoves, trainingIndex := 0,
            trainingActive := true }))
  else if cfg.colorWhite then
    some (start_clock R (freshSession cfg s), 0)
  else some (start_clock R (freshSession cfg s), 1)

/-- The session state after the reset-and-clamp block of `start_auto_game`
(gui.py lines 1708-1723): minutes and increment clamped as in the manual
start, board reset, auto mode activated, both engine Elo values clamped to
[800, 3000] (training state is not touched by the source here). -/
def autoFreshSession {M : Type} (cfg : Config M) (s : Session M) :
    Session M :=
  { s with
      timeWhite := 60 * clamp cfg.timeMinutesVar 1 180,
      timeBlack := 60 * clamp cfg.timeMinutesVar 1 180,
      increment := clamp cfg.incrementVar 0 60,
      moves := [], lastMove := none, redo := [],
      gameActive := true, autoMode := true,
      autoWhiteElo := clamp cfg.autoWhiteEloVar 800 3000,
      autoBlackElo := clamp cfg.autoBlackEloVar 800 3000 }

/-- `start_auto_game` (gui.py lines 1703-1729): refuse without the engine;
otherwise reset and clamp (`autoFreshSession`), start the clock (one
synchronous tick) and schedule the first auto engine request. -/
def start_auto_game {M : Type} (R : Rules M) (ready : Bool) (cfg : Config M)
    (s : Session M) : Option (Session M × Nat) :=
  if !ready then none
  else some (start_clock R (autoFreshSession cfg s), 1)

/-! ### Concrete oracles and sessions for evaluation -/

/-- Toy rules oracle: every move is legal, White moves exactly at even ply
counts, no position is terminal.  Used to evaluate the controller on
concrete inputs; the controller treats the oracle as opaque. -/
def allLegalRules : Rules Nat :=
  { legalStep := fun _ _ => true,
    whiteToMove := fun h => h.length % 2 == 0,
    gameOver := fun _ => false }

/-- Toy rules oracle where no move is ever legal. -/
def noneLegalRules : Rules Nat :=
  { legalStep := fun _ _ => false,
    whiteToMove := fun h => h.length % 2 == 0,
    gameOver := fun _ => false }

/-- Toy rules oracle where only the move `0` is legal. -/
def zeroOnlyRules : Rules Nat :=
  { legalStep := fun _ mv => mv == 0,
    whiteToMove := fun h => h.length % 2 == 0,
    gameOver := fun _ => false }

/-- A baseline idle session (fresh `ChessGUI` state). -/
def baseSession : Session Nat :=
  { moves := [], gameActive := false, autoMode := false, playerWhite := true,
    lastMove := none, redo := [], timeWhite := 300, timeBlack := 300,
    increment := 0, clockRunning := false, trainingActive := false,
    trainingLine := [], trainingIndex := 0,
    autoWhiteElo := 1500, autoBlackElo := 1500 }

/-! ### Projection and monotonicity helpers -/

@[simp] lemma addIncrement_moves {M : Type} (R : Rules M) (s : Session M) :
    (addIncrement R s).moves = s.moves := rfl

@[simp] lemma addIncrement_redo {M : Type} (R : Rules M) (s : Session M) :
    (addIncrement R s).redo = s.redo := rfl

@[simp] lemma addIncrement_gameActive {M : Type} (R : Rules M)
    (s : Session M) : (addIncrement R s).gameActive = s.gameActive := rfl

@[simp] lemma addIncrement_autoMode {M : Type} (R : Rules M)
    (s : Session M) : (addIncrement R s).autoMode = s.autoMode := rfl

@[simp] lemma addIncrement_playerWhite {M : Type} (R : Rules M)
    (s : Session M) : (addIncrement R s).playerWhite = s.playerWhite := rfl

@[simp] lemma addIncrement_trainingActive {M : Type} (R : Rules M)
    (s : Session M) :
    (addIncrement R s).trainingActive = s.trainingActive := rfl

@[simp] lemma addIncrement_trainingLine {M : Type} (R : Rules M)
    (s : Session M) : (addIncrement R s).trainingLine = s.trainingLine := rfl

@[simp] lemma addIncrement_trainingIndex {M : Type} (R : Rules M)
    (s : Session M) :
    (addIncrement R s).trainingIndex = s.trainingIndex := rfl

@[simp] lemma addIncrement_increment {M : Type} (R : Rules M)
    (s : Session M) : (addIncrement R s).increment = s.increment := rfl

@[simp] lemma addIncrement_lastMove {M : Type} (R : Rules M)
    (s : Session M) : (addIncrement R s).lastMove = s.lastMove := rfl

@[simp] lemma addIncrement_clockRunning {M : Type} (R : Rules M)
    (s : Session M) :
    (addIncrement R s).clockRunning = s.clockRunning := rfl

lemma addIncrement_timeWhite_le {M : Type} (R : Rules M) (s : Session M) :
    s.timeWhite ≤ (addIncrement R s).timeWhite := by
  show s.timeWhite ≤ ite (R.whiteToMove s.moves && decide (0 < s.increment))
      (s.timeWhite + s.increment) s.timeWhite
  split
  · next h =>
    have hpos : 0 < s.increment :=
      of_decide_eq_true (Bool.and_elim_right h)
    omega
  · exact le_refl _

lemma addIncrement_timeBlack_le {M : Type} (R : Rules M) (s : Session M) :
    s.timeBlack ≤ (addIncrement R s).timeBlack := by
  show s.timeBlack ≤ ite (!(R.whiteToMove s.moves) && decide (0 < s.increment))
      (s.timeBlack + s.increment) s.timeBlack
  split
  · next h =>
    have hpos : 0 < s.increment :=
      of_decide_eq_true (Bool.and_elim_right h)
    omega
  · exact le_refl _

lemma finishTrainingSuccess_fst {M : Type} (R : Rules M) (ready : Bool)
    (s : Session M) :
    (finishTrainingSuccess R ready s).1 = { s with trainingActive := false } := by
  unfold finishTrainingSuccess
  split
  · dsimp only
    split <;> rfl
  · next h =>
    cases s
    simp_all

lemma finishTrainingSuccess_snd {M : Type} (R : Rules M) (ready : Bool)
    (s : Session M) :
    (finishTrainingSuccess R ready s).2 ≤ 1
    ∧ ((finishTrainingSuccess R ready s).2 ≠ 0 → R.gameOver s.moves = false) := by
  unfold finishTrainingSuccess
  split
  · dsimp only
    split
    · next h =>
      refine ⟨le_refl _, fun _ => ?_⟩
      have := Bool.and_elim_right (Bool.and_elim_left (Bool.and_elim_left h))
      simpa using this
    · exact ⟨by omega, fun h => absurd rfl h⟩
  · exact ⟨by omega, fun h => absurd rfl h⟩

/-- Characterisation of the training auto-play loop: it applies exactly a
consecutive slice of the line starting at the cursor, advances the cursor
by the number of applied moves, touches neither the redo stack nor the
mode/turn fields, never decreases a clock, and every applied move is
applied at a position where it is not the human's turn. -/
lemma playTrainingLoop_spec {M : Type} (R : Rules M) :
    ∀ (fuel : Nat) (s : Session M), ∃ k : Nat,
      (playTrainingLoop R fuel s).moves
          = s.moves ++ (s.trainingLine.drop s.trainingIndex).take k
      ∧ (playTrainingLoop R fuel s).trainingIndex = s.trainingIndex + k
      ∧ (playTrainingLoop R fuel s).trainingLine = s.trainingLine
      ∧ (playTrainingLoop R fuel s).redo = s.redo
      ∧ (playTrainingLoop R fuel s).gameActive = s.gameActive
      ∧ (playTrainingLoop R fuel s).autoMode = s.autoMode
      ∧ (playTrainingLoop R fuel s).playerWhite = s.playerWhite
      ∧ (playTrainingLoop R fuel s).increment = s.increment
      ∧ s.timeWhite ≤ (playTrainingLoop R fuel s).timeWhite
      ∧ s.timeBlack ≤ (playTrainingLoop R fuel s).timeBlack
      ∧ ∀ i < k, R.whiteToMove
            (s.moves ++ (s.trainingLine.drop s.trainingIndex).take i)
          ≠ s.playerWhite := by
  intro fuel
  induction fuel with
  | zero =>
    intro s
    refine ⟨0, by simp [playTrainingLoop], by simp [playTrainingLoop],
      rfl, rfl, rfl, rfl, rfl, rfl, le_refl _, le_refl _, by omega⟩
  | succ fuel ih =>
    intro s
    rw [playTrainingLoop]
    by_cases h : s.trainingActive = true
        ∧ s.trainingIndex < s.trainingLine.length
        ∧ R.whiteToMove s.moves ≠ s.playerWhite
    · rw [dif_pos h]
      have hidx : s.trainingIndex < s.trainingLine.length := h.2.1
      have hturn : R.whiteToMove s.moves ≠ s.playerWhite := h.2.2
      by_cases hleg : R.legalStep s.moves (s.trainingLine.get
          ⟨s.trainingIndex, h.2.1⟩) = true
      · rw [if_pos hleg]
        obtain ⟨k2, h1, h2, h3, h4, h5, h6, h7, h8, h9, h10, h11⟩ :=
          ih { addIncrement R s with
                moves := (addIncrement R s).moves
                    ++ [s.trainingLine.get ⟨s.trainingIndex, h.2.1⟩],
                lastMove := some (s.trainingLine.get ⟨s.trainingIndex, h.2.1⟩),
                trainingIndex := (addIncrement R s).trainingIndex + 1 }
        refine ⟨k2 + 1, ?_, ?_, ?_, ?_, ?_, ?_, ?_, ?_, ?_, ?_, ?_⟩
        · refine h1.trans ?_
          show (s.moves ++ [s.trainingLine.get ⟨s.trainingIndex, h.2.1⟩])
              ++ (s.trainingLine.drop (s.trainingIndex + 1)).take k2
            = s.moves ++ (s.trainingLine.drop s.trainingIndex).take (k2 + 1)
          simp only [List.append_assoc, List.singleton_append]
          rw [List.drop_eq_getElem_cons hidx, List.take_succ_cons]
          rfl
        · refine h2.trans ?_
          show s.trainingIndex + 1 + k2 = s.trainingIndex + (k2 + 1)
          omega
        · exact h3
        · exact h4
        · exact h5
        · exact h6
        · exact h7
        · exact h8
        · exact le_trans (addIncrement_timeWhite_le R s) h9
        · exact le_trans (addIncrement_timeBlack_le R s) h10
        · intro i hi
          match i with
          | 0 => simpa using hturn
          | Nat.succ j =>
            have hj : j < k2 := by omega
            have hstep := h11 j hj
            rw [List.drop_eq_getElem_cons hidx, List.take_succ_cons]
            simpa using hstep
      · rw [if_neg hleg]
        refine ⟨0, by simp [finishTrainingFailure],
          by simp [finishTrainingFailure], rfl, rfl, rfl, rfl, rfl, rfl,
          le_refl _, le_refl _, by omega⟩
    · rw [dif_neg h]
      refine ⟨0, by simp, by simp, rfl, rfl, rfl, rfl, rfl, rfl,
        le_refl _, le_refl _, by omega⟩

/-- Characterisation of `play_training_moves_until_player_turn`: the moves
it commits are exactly a slice of the line at the cursor, each applied when
it is not the human's turn; the redo stack, mode and increment are
untouched; clocks never decrease; and at most one engine request is
scheduled, only once the line is exhausted with the game not over. -/
lemma play_training_spec {M : Type} (R : Rules M) (ready : Bool)
    (s : Session M) : ∃ k : Nat,
      (play_training_moves_until_player_turn R ready s).1.moves
          = s.moves ++ (s.trainingLine.drop s.trainingIndex).take k
      ∧ (play_training_moves_until_player_turn R ready s).1.trainingIndex
          = s.trainingIndex + k
      ∧ (play_training_moves_until_player_turn R ready s).1.trainingLine
          = s.trainingLine
      ∧ (play_training_moves_until_player_turn R ready s).1.redo = s.redo
      ∧ (play_training_moves_until_player_turn R ready s).1.gameActive
          = s.gameActive
      ∧ (play_training_moves_until_player_turn R ready s).1.autoMode
          = s.autoMode
      ∧ (play_training_moves_until_player_turn R ready s).1.playerWhite
          = s.playerWhite
      ∧ (play_training_moves_until_player_turn R ready s).1.increment
          = s.increment
      ∧ s.timeWhite ≤ (play_training_moves_until_player_turn R ready s).1.timeWhite
      ∧ s.timeBlack ≤ (play_training_moves_until_player_turn R ready s).1.timeBlack
      ∧ (∀ i < k, R.whiteToMove
            (s.moves ++ (s.trainingLine.drop s.trainingIndex).take i)
          ≠ s.playerWhite)
      ∧ (play_training_moves_until_player_turn R ready s).2 ≤ 1
      ∧ ((play_training_moves_until_player_turn R ready s).2 ≠ 0 →
          s.trainingLine.length
            ≤ (play_training_moves_until_player_turn R ready s).1.trainingIndex
          ∧ R.gameOver
              (play_training_moves_until_player_turn R ready s).1.moves
            = false) := by
  obtain ⟨k, l1, l2, l3, l4, l5, l6, l7, l8, l9, l10, l11⟩ :=
    playTrainingLoop_spec R (s.trainingLine.length - s.trainingIndex) s
  unfold play_training_moves_until_player_turn
  by_cases h0 : (!s.trainingActive) = true
  · rw [if_pos h0]
    exact ⟨0, by simp, by simp, rfl, rfl, rfl, rfl, rfl, rfl, le_refl _,
      le_refl _, by omega, by omega, fun h => absurd rfl h⟩
  · rw [if_neg h0]
    by_cases hg : ((playTrainingLoop R
          (s.trainingLine.length - s.trainingIndex) s).trainingActive
        && (R.gameOver (playTrainingLoop R
              (s.trainingLine.length - s.trainingIndex) s).moves
          || decide ((playTrainingLoop R
                (s.trainingLine.length - s.trainingIndex)
                s).trainingLine.length
              ≤ (playTrainingLoop R (s.trainingLine.length - s.trainingIndex)
                  s).trainingIndex))) = true
    · rw [if_pos hg]
      obtain ⟨hs1, hs2⟩ := finishTrainingSuccess_snd R ready
        (playTrainingLoop R (s.trainingLine.length - s.trainingIndex) s)
      refine ⟨k, ?_, ?_, ?_, ?_, ?_, ?_, ?_, ?_, ?_, ?_, l11, hs1, ?_⟩
      · rw [finishTrainingSuccess_fst]; exact l1
      · rw [finishTrainingSuccess_fst]; exact l2
      · rw [finishTrainingSuccess_fst]; exact l3
      · rw [finishTrainingSuccess_fst]; exact l4
      · rw [finishTrainingSuccess_fst]; exact l5
      · rw [finishTrainingSuccess_fst]; exact l6
      · rw [finishTrainingSuccess_fst]; exact l7
      · rw [finishTrainingSuccess_fst]; exact l8
      · rw [finishTrainingSuccess_fst]; exact l9
      · rw [finishTrainingSuccess_fst]; exact l10
      · intro hne
        have hgo := hs2 hne
        have hdisj := Bool.and_elim_right hg
        rw [finishTrainingSuccess_fst]
        show s.trainingLine.length
            ≤ (playTrainingLoop R (s.trainingLine.length - s.trainingIndex)
                s).trainingIndex
          ∧ R.gameOver (playTrainingLoop R
              (s.trainingLine.length - s.trainingIndex) s).moves = false
        rcases Bool.or_eq_true_iff.mp hdisj with hov | hlen
        · rw [hov] at hgo; exact absurd hgo (by simp)
        · refine ⟨?_, hgo⟩
          have := of_decide_eq_true hlen
          rw [l3] at this
          exact this
    · rw [if_neg hg]
      exact ⟨k, l1, l2, l3, l4, l5, l6, l7, l8, l9, l10, l11, by omega,
        fun h => absurd rfl h⟩

/-- When training is active, the cursor is in range, it is not the human's
turn and the expected line move is legal, the auto-play loop commits at
least that move. -/
lemma play_training_progress {M : Type} (R : Rules M) (ready : Bool)
    (s : Session M) (hta : s.trainingActive = true)
    (hidx : s.trainingIndex < s.trainingLine.length)
    (hturn : R.whiteToMove s.moves ≠ s.playerWhite)
    (hleg : R.legalStep s.moves
      (s.trainingLine.get ⟨s.trainingIndex, hidx⟩) = true) :
    s.trainingIndex + 1
      ≤ (play_training_moves_until_player_turn R ready s).1.trainingIndex := by
  have key : s.trainingIndex + 1 ≤ (playTrainingLoop R
      (s.trainingLine.length - s.trainingIndex) s).trainingIndex := by
    have hfuel : s.trainingLine.length - s.trainingIndex
        = Nat.succ (s.trainingLine.length - s.trainingIndex - 1) := by omega
    rw [hfuel, playTrainingLoop, dif_pos ⟨hta, hidx, hturn⟩, if_pos hleg]
    obtain ⟨k2, _, h2, _⟩ := playTrainingLoop_spec R
      (s.trainingLine.length - s.trainingIndex - 1)
      { addIncrement R s with
          moves := (addIncrement R s).moves
              ++ [s.trainingLine.get ⟨s.trainingIndex,
                    (⟨hta, hidx, hturn⟩ : s.trainingActive = true
                      ∧ s.trainingIndex < s.trainingLine.length
                      ∧ R.whiteToMove s.moves ≠ s.playerWhite).2.1⟩],
          lastMove := some (s.trainingLine.get ⟨s.trainingIndex,
                    (⟨hta, hidx, hturn⟩ : s.trainingActive = true
                      ∧ s.trainingIndex < s.trainingLine.length
                      ∧ R.whiteToMove s.moves ≠ s.playerWhite).2.1⟩),
          trainingIndex := (addIncrement R s).trainingIndex + 1 }
    rw [h2]
    show s.trainingIndex + 1 ≤ s.trainingIndex + 1 + k2
    omega
  unfold play_training_moves_until_player_turn
  rw [if_neg (by simp [hta])]
  split
  · rw [finishTrainingSuccess_fst]
    exact key
  · exact key

/-- Characterisation of the commit path of `make_move` (lines 1165-1196):
the position is extended by the committed move (possibly followed by
training auto-play), the redo stack ends empty, and clocks do not
decrease. -/
lemma commitMove_spec {M : Type} (R : Rules M) (ready : Bool) (mv : M)
    (b : Bool) (s : Session M) : ∃ t : List M,
      (commitMove R ready mv b s).1.moves = (s.moves ++ [mv]) ++ t
      ∧ (commitMove R ready mv b s).1.redo = []
      ∧ s.timeWhite ≤ (commitMove R ready mv b s).1.timeWhite
      ∧ s.timeBlack ≤ (commitMove R ready mv b s).1.timeBlack := by
  have hw := addIncrement_timeWhite_le R s
  have hb := addIncrement_timeBlack_le R s
  unfold commitMove
  split
  · split
    · rw [finishTrainingSuccess_fst]
      exact ⟨[], by simp [commitState], rfl, hw, hb⟩
    · obtain ⟨k, p1, _, _, p4, _, _, _, _, p9, p10, _⟩ :=
        play_training_spec R ready (commitState R mv b s)
      exact ⟨_, p1, p4, le_trans hw p9, le_trans hb p10⟩
  · split
    · exact ⟨[], by simp [commitState, end_game], rfl, hw, hb⟩
    · split
      · exact ⟨[], by simp [commitState], rfl, hw, hb⟩
      · exact ⟨[], by simp [commitState], rfl, hw, hb⟩

/-- Characterisation of one clock tick: it changes only the clock of the
side to move (floored at 0) and, on a flag, the activity flags; the clock
of the side not to move is untouched and non-negativity is preserved. -/
lemma tick_clock_spec {M : Type} (R : Rules M) (s : Session M) :
    (tick_clock R s).moves = s.moves
    ∧ (tick_clock R s).redo = s.redo
    ∧ (tick_clock R s).increment = s.increment
    ∧ (tick_clock R s).trainingActive = s.trainingActive
    ∧ (tick_clock R s).trainingLine = s.trainingLine
    ∧ (tick_clock R s).trainingIndex = s.trainingIndex
    ∧ (tick_clock R s).playerWhite = s.playerWhite
    ∧ (tick_clock R s).autoWhiteElo = s.autoWhiteElo
    ∧ (tick_clock R s).autoBlackElo = s.autoBlackElo
    ∧ (tick_clock R s).lastMove = s.lastMove
    ∧ (R.whiteToMove s.moves = true → (tick_clock R s).timeBlack = s.timeBlack)
    ∧ (R.whiteToMove s.moves = false → (tick_clock R s).timeWhite = s.timeWhite)
    ∧ (0 ≤ s.timeWhite → 0 ≤ (tick_clock R s).timeWhite)
    ∧ (0 ≤ s.timeBlack → 0 ≤ (tick_clock R s).timeBlack) := by
  unfold tick_clock flag_time
  split
  · exact ⟨rfl, rfl, rfl, rfl, rfl, rfl, rfl, rfl, rfl, rfl,
      fun _ => rfl, fun _ => rfl, fun h => h, fun h => h⟩
  · split
    · next hW =>
      split
      · refine ⟨rfl, rfl, rfl, rfl, rfl, rfl, rfl, rfl, rfl, rfl,
          fun _ => rfl, ?_, ?_, fun h => h⟩
        · intro hf; rw [hf] at hW; exact absurd hW (by decide)
        · intro _; exact le_max_left _ _
      · refine ⟨rfl, rfl, rfl, rfl, rfl, rfl, rfl, rfl, rfl, rfl,
          fun _ => rfl, ?_, ?_, fun h => h⟩
        · intro hf; rw [hf] at hW; exact absurd hW (by decide)
        · intro _; exact le_max_left _ _
    · next hW =>
      have hWf : R.whiteToMove s.moves = false := by
        cases hx : R.whiteToMove s.moves
        · rfl
        · exact absurd hx hW
      split
      · refine ⟨rfl, rfl, rfl, rfl, rfl, rfl, rfl, rfl, rfl, rfl,
          ?_, fun _ => rfl, fun h => h, ?_⟩
        · intro ht; rw [ht] at hWf; exact absurd hWf (by decide)
        · intro _; exact le_max_left _ _
      · refine ⟨rfl, rfl, rfl, rfl, rfl, rfl, rfl, rfl, rfl, rfl,
          ?_, fun _ => rfl, fun h => h, ?_⟩
        · intro ht; rw [ht] at hWf; exact absurd hWf (by decide)
        · intro _; exact le_max_left _ _

/-- Exact effect of the increment block when White is to move. -/
lemma addIncrement_white {M : Type} (R : Rules M) (s : Session M)
    (hW : R.whiteToMove s.moves = true) :
    (addIncrement R s).timeWhite
      = s.timeWhite + (if 0 < s.increment then s.increment else 0)
    ∧ (addIncrement R s).timeBlack = s.timeBlack := by
  constructor
  · show (if R.whiteToMove s.moves && decide (0 < s.increment) then
        s.timeWhite + s.increment else s.timeWhite) = _
    rw [hW]
    by_cases hi : 0 < s.increment
    · simp [hi]
    · simp [hi]
  · show (if !(R.whiteToMove s.moves) && decide (0 < s.increment) then
        s.timeBlack + s.increment else s.timeBlack) = s.timeBlack
    rw [hW]
    simp

/-- Exact effect of the increment block when Black is to move. -/
lemma addIncrement_black {M : Type} (R : Rules M) (s : Session M)
    (hW : R.whiteToMove s.moves = false) :
    (addIncrement R s).timeBlack
      = s.timeBlack + (if 0 < s.increment then s.increment else 0)
    ∧ (addIncrement R s).timeWhite = s.timeWhite := by
  constructor
  · show (if !(R.whiteToMove s.moves) && decide (0 < s.increment) then
        s.timeBlack + s.increment else s.timeBlack) = _
    rw [hW]
    by_cases hi : 0 < s.increment
    · simp [hi]
    · simp [hi]
  · show (if R.whiteToMove s.moves && decide (0 < s.increment) then
        s.timeWhite + s.increment else s.timeWhite) = s.timeWhite
    rw [hW]
    simp

/-- All branches of the manual-delivery handler carry the incremented
clocks through unchanged. -/
lemma process_manual_times {M : Type} (R : Rules M) (mv : M)
    (s : Session M) :
    (process_engine_queue R (EngineMsg.moveManual mv) s).1.timeWhite
      = (addIncrement R s).timeWhite
    ∧ (process_engine_queue R (EngineMsg.moveManual mv) s).1.timeBlack
      = (addIncrement R s).timeBlack := by
  simp only [process_engine_queue]
  split
  · split
    · exact ⟨rfl, rfl⟩
    · exact ⟨rfl, rfl⟩
  · exact ⟨rfl, rfl⟩

/-- Clocks never decrease across one drained engine message. -/
lemma process_times_mono {M : Type} (R : Rules M) (msg : EngineMsg M)
    (s : Session M) :
    s.timeWhite ≤ (process_engine_queue R msg s).1.timeWhite
    ∧ s.timeBlack ≤ (process_engine_queue R msg s).1.timeBlack := by
  have hw := addIncrement_timeWhite_le R s
  have hb := addIncrement_timeBlack_le R s
  cases msg
  · simp only [process_engine_queue]
    split
    · split
      · exact ⟨hw, hb⟩
      · exact ⟨hw, hb⟩
    · exact ⟨hw, hb⟩
  · simp only [process_engine_queue]
    split
    · split
      · exact ⟨hw, hb⟩
      · exact ⟨hw, hb⟩
    · exact ⟨hw, hb⟩
  · exact ⟨le_refl _, le_refl _⟩

/-- Clocks never decrease across `make_move`. -/
lemma make_move_times_mono {M : Type} [DecidableEq M] (R : Rules M)
    (ready : Bool) (mv : M) (s : Session M) :
    s.timeWhite ≤ (make_move R ready mv s).1.timeWhite
    ∧ s.timeBlack ≤ (make_move R ready mv s).1.timeBlack := by
  unfold make_move
  split
  · split
    · split
      · obtain ⟨t, _, _, q3, q4⟩ := commitMove_spec R ready mv true s
        exact ⟨q3, q4⟩
      · exact ⟨le_refl _, le_refl _⟩
    · refine ⟨?_, ?_⟩ <;> (rw [finishTrainingSuccess_fst]; try exact le_refl _)
  · obtain ⟨t, _, _, q3, q4⟩ := commitMove_spec R ready mv false s
    exact ⟨q3, q4⟩

/-- Clocks never decrease across a human submission. -/
lemma submit_times_mono {M : Type} [DecidableEq M] (R : Rules M)
    (ready : Bool) (mv : M) (s : Session M) :
    s.timeWhite ≤ (submitHumanMove R ready mv s).1.timeWhite
    ∧ s.timeBlack ≤ (submitHumanMove R ready mv s).1.timeBlack := by
  unfold submitHumanMove
  split
  · exact ⟨le_refl _, le_refl _⟩
  · split
    · exact ⟨le_refl _, le_refl _⟩
    · split
      · exact make_move_times_mono R ready mv s
      · exact ⟨le_refl _, le_refl _⟩

/-- The clamp always lands inside its bounds. -/
lemma clamp_bounds (v a b : Int) (hab : a ≤ b) :
    a ≤ clamp v a b ∧ clamp v a b ≤ b :=
  ⟨le_max_left _ _, max_le hab (min_le_right _ _)⟩

/-- `start_clock` on a fresh active session with both clocks above one
second: no flag fires, only the side to move loses exactly one second. -/
lemma start_clock_on_fresh {M : Type} (R : Rules M) (s : Session M)
    (hact : s.gameActive = true) (htw : 1 < s.timeWhite)
    (htb : 1 < s.timeBlack) :
    (start_clock R s).moves = s.moves
    ∧ (start_clock R s).redo = s.redo
    ∧ (start_clock R s).increment = s.increment
    ∧ (start_clock R s).trainingActive = s.trainingActive
    ∧ (start_clock R s).trainingLine = s.trainingLine
    ∧ (start_clock R s).trainingIndex = s.trainingIndex
    ∧ (start_clock R s).playerWhite = s.playerWhite
    ∧ (start_clock R s).autoMode = s.autoMode
    ∧ (start_clock R s).autoWhiteElo = s.autoWhiteElo
    ∧ (start_clock R s).autoBlackElo = s.autoBlackElo
    ∧ (start_clock R s).gameActive = true
    ∧ (R.whiteToMove s.moves = true →
        (start_clock R s).timeWhite = s.timeWhite - 1
        ∧ (start_clock R s).timeBlack = s.timeBlack)
    ∧ (R.whiteToMove s.moves = false →
        (start_clock R s).timeBlack = s.timeBlack - 1
        ∧ (start_clock R s).timeWhite = s.timeWhite) := by
  unfold start_clock tick_clock flag_time
  rw [if_neg (by simp [hact])]
  split
  · next hW =>
    have hW' : R.whiteToMove s.moves = true := hW
    have hmax : max 0 (s.timeWhite - 1) = s.timeWhite - 1 :=
      max_eq_right (by omega)
    rw [if_neg (by rw [hmax]; omega)]
    refine ⟨rfl, rfl, rfl, rfl, rfl, rfl, rfl, rfl, rfl, rfl, hact,
      fun _ => ⟨hmax, rfl⟩, fun hf => ?_⟩
    rw [hW'] at hf
    exact absurd hf (by decide)
  · next hW =>
    have hW' : R.whiteToMove s.moves = false := by
      cases hx : R.whiteToMove s.moves
      · rfl
      · exact absurd (show R.whiteToMove
          ({ s with clockRunning := true } : Session M).moves = true from hx) hW
    have hmax : max 0 (s.timeBlack - 1) = s.timeBlack - 1 :=
      max_eq_right (by omega)
    rw [if_neg (by rw [hmax]; omega)]
    refine ⟨rfl, rfl, rfl, rfl, rfl, rfl, rfl, rfl, rfl, rfl, hact,
      fun ht => ?_, fun _ => ⟨hmax, rfl⟩⟩
    rw [hW'] at ht
    exact absurd ht (by decide)

/-! ### Concrete sessions and configurations for counterexamples and
witnesses -/

/-- A live manual session (game active, defaults otherwise). -/
def manualSession : Session Nat := { baseSession with gameActive := true }

/-- A live session with a non-empty redo stack. -/
def redoSession : Session Nat :=
  { baseSession with gameActive := true, redo := [3] }

/-- A stopped session (as after `Resign`/`Stop`): `game_active` is false,
so any message still sitting in the engine queue is necessarily stale. -/
def stoppedSession : Session Nat := { baseSession with gameActive := false }

/-- A live session with a positive increment. -/
def incrementSession : Session Nat :=
  { baseSession with gameActive := true, increment := 2, timeWhite := 10 }

/-- A live session whose redo stack holds one entry. -/
def redoOneSession : Session Nat :=
  { baseSession with gameActive := true, redo := [4] }

/-- A live manual session with two committed plies. -/
def twoMoveSession : Session Nat :=
  { baseSession with gameActive := true, moves := [1, 2] }

/-- A live training session: human plays Black, line `[5, 6]` pending. -/
def trainSession : Session Nat :=
  { baseSession with
      gameActive := true, trainingActive := true,
      trainingLine := [5, 6], trainingIndex := 0, playerWhite := false }

/-- A prior session state with history and clocks that a new-game call
should (per the claim) leave untouched on failure. -/
def priorSession : Session Nat :=
  { baseSession with
      moves := [1], gameActive := true,
      timeWhite := 77, timeBlack := 88 }

/-- A configuration requesting a training line whose single move `5` is
illegal under `zeroOnlyRules` (only `0` is ever legal). -/
def badLineConfig : Config Nat :=
  { timeMinutesVar := 5, incrementVar := 0, colorWhite := true,
    trainingModeVar := true, openingMoves := [5],
    autoWhiteEloVar := 1500, autoBlackEloVar := 1500 }

/-- A one-minute, no-increment, free-mode configuration. -/
def oneMinuteConfig : Config Nat :=
  { timeMinutesVar := 1, incrementVar := 0, colorWhite := true,
    trainingModeVar := false, openingMoves := [],
    autoWhiteEloVar := 1500, autoBlackEloVar := 1500 }

/-! ### C1 — stale engine responses -/

/-- Claim C1 counterexample: the session has been stopped (as after
`Resign`/`Stop`, so every pending request generation is superseded), yet
processing a late engine response still mutates the Position: the message
carries no generation and the handler checks neither a generation nor
`game_active`. -/
theorem stale_engine_response_mutates_after_stop :
    stoppedSession.gameActive = false
    ∧ stoppedSession.moves = []
    ∧ (process_engine_queue allLegalRules (EngineMsg.moveManual 7)
        stoppedSession).1.moves = [7] := by
  refine ⟨rfl, rfl, ?_⟩
  decide

/-- Claim C1 (amended): an engine response carries no generation tag, and
its application is guarded only by the legality of the move in the current
position — not by any generation or session-activity check.  The drained
manual-move response is pushed exactly when it is legal. -/
theorem engine_response_applied_iff_legal {M : Type} (R : Rules M)
    (mv : M) (s : Session M) :
    (process_engine_queue R (EngineMsg.moveManual mv) s).1.moves
      = if R.legalStep s.moves mv then s.moves ++ [mv] else s.moves := by
  simp only [process_engine_queue, addIncrement_moves]
  split
  · split
    · show (appliedResponse R mv s).moves = s.moves ++ [mv]
      rfl
    · rfl
  · rfl

/-! ### C3 — the redo stack after committed plies -/

/-- Claim C3 counterexample: an engine-committed ply (the drained response
`7` is pushed: the history grows) leaves a non-empty redo stack behind —
`process_engine_queue` never clears `move_stack_for_redo`. -/
theorem engine_committed_ply_keeps_redo :
    (process_engine_queue allLegalRules (EngineMsg.moveManual 7)
        redoSession).1.moves = [7]
    ∧ (process_engine_queue allLegalRules (EngineMsg.moveManual 7)
        redoSession).1.redo = [3]
    ∧ redoSession.redo = [3] := by
  decide

/-- Claim C3 (amended): only a ply committed through `make_move` (a human
submission) clears the redo stack; plies committed by applying an engine
response and plies committed by training auto-play leave the redo stack
exactly as it was. -/
theorem redo_cleared_only_by_human_commit {M : Type} [DecidableEq M]
    (R : Rules M) (ready : Bool) (mv : M) (msg : EngineMsg M)
    (s : Session M) :
    (process_engine_queue R msg s).1.redo = s.redo
    ∧ (play_training_moves_until_player_turn R ready s).1.redo = s.redo
    ∧ ((make_move R ready mv s).1.moves ≠ s.moves →
        (make_move R ready mv s).1.redo = []) := by
  refine ⟨?_, ?_, ?_⟩
  · cases msg
    · simp only [process_engine_queue]
      split
      · split
        · rfl
        · rfl
      · rfl
    · simp only [process_engine_queue]
      split
      · split
        · rfl
        · rfl
      · rfl
    · rfl
  · obtain ⟨k, _, _, _, p4, _⟩ := play_training_spec R ready s
    exact p4
  · unfold make_move
    split
    · split
      · split
        · intro _
          obtain ⟨t, _, q2, _, _⟩ := commitMove_spec R ready mv true s
          exact q2
        · exact fun h => absurd rfl h
      · intro h
        rw [finishTrainingSuccess_fst] at h
        exact absurd rfl h
    · intro _
      obtain ⟨t, _, q2, _, _⟩ := commitMove_spec R ready mv false s
      exact q2

/-- Witness for the amended C3 theorem at a concrete input: the human
commit of move `5` from the live manual session empties the redo stack. -/
theorem redo_cleared_witness :
    (make_move allLegalRules true 5 redoSession).1.redo = [] :=
  (redo_cleared_only_by_human_commit allLegalRules true 5
    EngineMsg.error redoSession).2.2 (by decide)

/-! ### C7 — when the clock increment is applied -/

/-- Claim C7 counterexample: under an oracle that rejects every move, the
drained engine response `9` is rejected (the Position is unchanged), yet
the side to move still receives the 2-second increment — the handler adds
the increment before checking legality. -/
theorem rejected_engine_delivery_still_gets_increment :
    incrementSession.timeWhite = 10
    ∧ (process_engine_queue noneLegalRules (EngineMsg.moveManual 9)
        incrementSession).1.moves = incrementSession.moves
    ∧ (process_engine_queue noneLegalRules (EngineMsg.moveManual 9)
        incrementSession).1.timeWhite = 12 := by
  decide

/-- Claim C7 (amended): on a human submission the increment is applied
only on commit — every rejected submission leaves both clocks (indeed the
whole session) unchanged; but on an engine delivery the increment is
applied to the side to move before the legality check, so it is granted
whether or not the move is committed, while the other side's clock is
untouched. -/
theorem increment_applied_per_delivery_not_per_commit {M : Type}
    [DecidableEq M] (R : Rules M) (ready : Bool) (mv : M) (s : Session M) :
    (R.whiteToMove s.moves = true →
      (process_engine_queue R (EngineMsg.moveManual mv) s).1.timeWhite
        = s.timeWhite + (if 0 < s.increment then s.increment else 0)
      ∧ (process_engine_queue R (EngineMsg.moveManual mv) s).1.timeBlack
        = s.timeBlack)
    ∧ (R.whiteToMove s.moves = false →
      (process_engine_queue R (EngineMsg.moveManual mv) s).1.timeBlack
        = s.timeBlack + (if 0 < s.increment then s.increment else 0)
      ∧ (process_engine_queue R (EngineMsg.moveManual mv) s).1.timeWhite
        = s.timeWhite)
    ∧ (R.legalStep s.moves mv = false →
      (process_engine_queue R (EngineMsg.moveManual mv) s).1.moves
        = s.moves)
    ∧ ((submitHumanMove R ready mv s).1.moves = s.moves →
      (submitHumanMove R ready mv s).1.timeWhite = s.timeWhite
      ∧ (submitHumanMove R ready mv s).1.timeBlack = s.timeBlack) := by
  obtain ⟨pw, pb⟩ := process_manual_times R mv s
  refine ⟨?_, ?_, ?_, ?_⟩
  · intro hW
    obtain ⟨aw, ab⟩ := addIncrement_white R s hW
    exact ⟨pw.trans aw, pb.trans ab⟩
  · intro hW
    obtain ⟨ab, aw⟩ := addIncrement_black R s hW
    exact ⟨pb.trans ab, pw.trans aw⟩
  · intro hleg
    rw [engine_response_applied_iff_legal, if_neg (by simp [hleg])]
  · unfold submitHumanMove
    split
    · exact fun _ => ⟨rfl, rfl⟩
    · split
      · exact fun _ => ⟨rfl, rfl⟩
      · split
        · unfold make_move
          split
          · split
            · split
              · intro hEq
                obtain ⟨t, q1, _, _, _⟩ := commitMove_spec R ready mv true s
                rw [q1] at hEq
                have := congrArg List.length hEq
                simp [List.length_append] at this
              · exact fun _ => ⟨rfl, rfl⟩
            · intro _
              constructor
              · rw [finishTrainingSuccess_fst]
              · rw [finishTrainingSuccess_fst]
          · intro hEq
            obtain ⟨t, q1, _, _, _⟩ := commitMove_spec R ready mv false s
            rw [q1] at hEq
            have := congrArg List.length hEq
            simp [List.length_append] at this
        · exact fun _ => ⟨rfl, rfl⟩

/-- Witness for the amended C7 theorem at a concrete input: with White to
move and increment 2, the rejected delivery grants White the increment
while Black's clock is untouched, and a rejected submission leaves the
clocks unchanged. -/
theorem increment_applied_witness :
    ((process_engine_queue noneLegalRules (EngineMsg.moveManual 9)
        incrementSession).1.timeWhite
      = incrementSession.timeWhite
        + (if 0 < incrementSession.increment
            then incrementSession.increment else 0)
    ∧ (process_engine_queue noneLegalRules (EngineMsg.moveManual 9)
        incrementSession).1.timeBlack = incrementSession.timeBlack)
    ∧ ((submitHumanMove noneLegalRules true 9 incrementSession).1.timeWhite
        = incrementSession.timeWhite
      ∧ (submitHumanMove noneLegalRules true 9 incrementSession).1.timeBlack
        = incrementSession.timeBlack) :=
  ⟨(increment_applied_per_delivery_not_per_commit noneLegalRules true 9
      incrementSession).1 (by decide),
   (increment_applied_per_delivery_not_per_commit noneLegalRules true 9
      incrementSession).2.2.2 (by decide)⟩

/-! ### C8 — Redo with an illegal stored move -/

/-- Claim C8 counterexample: the top redo entry `4` is illegal in the
current position; `Redo()` leaves the Position unchanged but still pops
the entry — the stack shrinks from `[4]` to `[]` and the entry is lost. -/
theorem illegal_redo_discards_entry :
    redoOneSession.redo = [4]
    ∧ (redo_move noneLegalRules redoOneSession).moves = redoOneSession.moves
    ∧ (redo_move noneLegalRules redoOneSession).redo = [] := by
  decide

/-- Claim C8 (amended): when the top redo entry is no longer legal in the
current position, `Redo()` leaves the Position unchanged but pops the
entry unconditionally: the redo stack shrinks by exactly that entry, which
is discarded rather than retained. -/
theorem redo_illegal_no_op_but_pops {M : Type} [DecidableEq M] (R : Rules M)
    (s : Session M) (hauto : s.autoMode = false) (hne : s.redo ≠ [])
    (hleg : R.legalStep s.moves (s.redo.getLast hne) = false) :
    (redo_move R s).moves = s.moves
    ∧ (redo_move R s).redo = s.redo.dropLast := by
  have hcond : ¬(s.redo = [] ∨ s.autoMode = true) := by
    intro hor
    rcases hor with h1 | h2
    · exact hne h1
    · rw [hauto] at h2; cases h2
  unfold redo_move
  rw [dif_neg hcond]
  have hlegP : R.legalStep s.moves
      (s.redo.getLast (not_or.mp hcond).1) = false := hleg
  rw [if_neg (by rw [hlegP]; simp)]
  exact ⟨rfl, rfl⟩

/-- Witness for the amended C8 theorem at a concrete input. -/
theorem redo_illegal_witness :
    (redo_move noneLegalRules redoOneSession).moves = redoOneSession.moves
    ∧ (redo_move noneLegalRules redoOneSession).redo
      = redoOneSession.redo.dropLast :=
  redo_illegal_no_op_but_pops noneLegalRules redoOneSession rfl
    (by decide) (by decide)

/-! ### C5 — Undo then Redo round trip -/

/-- Splitting sequential legality at the last move. -/
lemma lineValid_concat {M : Type} (R : Rules M) :
    ∀ (xs : List M) (h : List M) (x : M),
      lineValid R h (xs ++ [x])
        = (lineValid R h xs && R.legalStep (h ++ xs) x) := by
  intro xs
  induction xs with
  | nil =>
    intro h x
    simp [lineValid]
  | cons a rest ih =>
    intro h x
    show (R.legalStep h a && lineValid R (h ++ [a]) (rest ++ [x]))
      = ((R.legalStep h a && lineValid R (h ++ [a]) rest)
          && R.legalStep (h ++ a :: rest) x)
    rw [ih (h ++ [a]) x, Bool.and_assoc]
    simp

/-- Claim C5: outside Auto mode, on a non-empty move history whose moves
are each legal in sequence (the invariant every push site of the
controller maintains), `Undo()` immediately followed by `Redo()` restores
the identical position: same move history, and the redo stack is back to
what it was. -/
theorem undo_redo_round_trip {M : Type} [DecidableEq M] (R : Rules M)
    (s : Session M) (hauto : s.autoMode = false) (hne : s.moves ≠ [])
    (hleg : lineValid R [] s.moves = true) :
    (redo_move R (undo_move s)).moves = s.moves
    ∧ (redo_move R (undo_move s)).redo = s.redo := by
  have hcond : ¬(s.moves = [] ∨ s.autoMode = true) := by
    intro hor
    rcases hor with h1 | h2
    · exact hne h1
    · rw [hauto] at h2; cases h2
  unfold undo_move
  rw [dif_neg hcond]
  unfold redo_move
  have hcond2 : ¬((s.redo ++ [s.moves.getLast (not_or.mp hcond).1]) = []
      ∨ s.autoMode = true) := by
    intro hor
    rcases hor with h1 | h2
    · exact absurd h1 (by simp)
    · rw [hauto] at h2; cases h2
  rw [dif_neg hcond2]
  have hlast : (s.redo ++ [s.moves.getLast (not_or.mp hcond).1]).getLast
      (not_or.mp hcond2).1 = s.moves.getLast (not_or.mp hcond).1 := by
    have := List.getLast?_concat (l := s.redo)
        (a := s.moves.getLast (not_or.mp hcond).1)
    rw [List.getLast?_eq_getLast _ (not_or.mp hcond2).1] at this
    injection this
  have hlegtop : R.legalStep s.moves.dropLast
      (s.moves.getLast (not_or.mp hcond).1) = true := by
    have hsplit : s.moves.dropLast
        ++ [s.moves.getLast (not_or.mp hcond).1] = s.moves :=
      List.dropLast_append_getLast (not_or.mp hcond).1
    have hv := hleg
    rw [← hsplit, lineValid_concat] at hv
    have := Bool.and_elim_right hv
    simpa using this
  rw [if_pos (show R.legalStep s.moves.dropLast
      ((s.redo ++ [s.moves.getLast (not_or.mp hcond).1]).getLast
        (not_or.mp hcond2).1) = true from by rw [hlast]; exact hlegtop)]
  refine ⟨?_, ?_⟩
  · show s.moves.dropLast
        ++ [(s.redo ++ [s.moves.getLast (not_or.mp hcond).1]).getLast
              (not_or.mp hcond2).1] = s.moves
    rw [hlast]
    exact List.dropLast_append_getLast (not_or.mp hcond).1
  · show (s.redo ++ [s.moves.getLast (not_or.mp hcond).1]).dropLast = s.redo
    exact List.dropLast_concat

/-- Witness for C5 at a concrete input: undoing and redoing from history
`[1, 2]` restores it. -/
theorem undo_redo_round_trip_witness :
    (redo_move allLegalRules (undo_move twoMoveSession)).moves
      = twoMoveSession.moves
    ∧ (redo_move allLegalRules (undo_move twoMoveSession)).redo
      = twoMoveSession.redo :=
  undo_redo_round_trip allLegalRules twoMoveSession rfl (by decide)
    (by decide)

/-! ### C9 — the Training Sequencer -/

/-- Claim C9: training auto-play commits exactly a consecutive slice of
the line at the cursor (never any other move), advancing the cursor by the
number of committed moves; every committed move is applied at a position
where it is not the human's turn (in particular, on the human's turn
nothing is applied); the only engine request it can schedule happens once
the line is exhausted — a line move is never replaced by an engine move —
and when the loop conditions hold (active, cursor in range, not the
human's turn, line move legal) at least `line[cursor]` is committed. -/
theorem training_sequencer_plays_only_line_moves {M : Type} (R : Rules M)
    (ready : Bool) (s : Session M) : ∃ k : Nat,
      (play_training_moves_until_player_turn R ready s).1.moves
          = s.moves ++ (s.trainingLine.drop s.trainingIndex).take k
      ∧ (play_training_moves_until_player_turn R ready s).1.trainingIndex
          = s.trainingIndex + k
      ∧ (∀ i < k, R.whiteToMove
            (s.moves ++ (s.trainingLine.drop s.trainingIndex).take i)
          ≠ s.playerWhite)
      ∧ (R.whiteToMove s.moves = s.playerWhite → k = 0)
      ∧ (play_training_moves_until_player_turn R ready s).2 ≤ 1
      ∧ ((play_training_moves_until_player_turn R ready s).2 ≠ 0 →
          s.trainingLine.length ≤ s.trainingIndex + k)
      ∧ (s.trainingActive = true →
          ∀ (h : s.trainingIndex < s.trainingLine.length),
            R.whiteToMove s.moves ≠ s.playerWhite →
            R.legalStep s.moves
              (s.trainingLine.get ⟨s.trainingIndex, h⟩) = true →
            1 ≤ k) := by
  obtain ⟨k, p1, p2, p3, _, _, _, _, _, _, _, p11, p12, p13⟩ :=
    play_training_spec R ready s
  refine ⟨k, p1, p2, p11, ?_, p12, ?_, ?_⟩
  · intro hEq
    by_contra hk
    have hk0 : 0 < k := by omega
    have := p11 0 hk0
    simp at this
    exact this hEq
  · intro hne
    have := (p13 hne).1
    rw [p2] at this
    exact this
  · intro hta h hturn hlegal
    have hprog := play_training_progress R ready s hta h hturn hlegal
    rw [p2] at hprog
    omega

/-- Witness for C9 at a concrete input: from the training session with
line `[5, 6]` and the human playing Black, auto-play commits a slice of
the line. -/
theorem training_sequencer_witness :
    ∃ k : Nat,
      (play_training_moves_until_player_turn allLegalRules true
          trainSession).1.moves
        = trainSession.moves
          ++ (trainSession.trainingLine.drop trainSession.trainingIndex).take
              k := by
  obtain ⟨k, p1, _⟩ :=
    training_sequencer_plays_only_line_moves allLegalRules true trainSession
  exact ⟨k, p1⟩

/-! ### C2 — SubmitHumanMove mutates iff accepted -/

/-- Claim C2: with an active non-Auto session (and the training-mode
invariant that an active line's cursor is in range), a human submission
mutates the session state exactly when the move is in the Rules Engine's
current legal-move set, it is the human's turn, and — in Training mode —
the move equals the line's expected move at the cursor; in Training mode a
legal human-turn move different from the expected move is rejected with no
mutation at all (cursor included). -/
theorem submit_human_move_mutates_iff {M : Type} [DecidableEq M]
    (R : Rules M) (ready : Bool) (mv : M) (s : Session M)
    (hga : s.gameActive = true) (hauto : s.autoMode = false)
    (hinv : s.trainingActive = true →
      s.trainingIndex < s.trainingLine.length) :
    ((submitHumanMove R ready mv s).1 ≠ s ↔
      (R.whiteToMove s.moves = s.playerWhite
        ∧ R.legalStep s.moves mv = true
        ∧ (s.trainingActive = true →
            s.trainingLine.get? s.trainingIndex = some mv)))
    ∧ (∀ e, s.trainingActive = true →
        R.whiteToMove s.moves = s.playerWhite →
        R.legalStep s.moves mv = true →
        s.trainingLine.get? s.trainingIndex = some e → mv ≠ e →
        (submitHumanMove R ready mv s).1 = s) := by
  unfold submitHumanMove
  rw [if_neg (by simp [hga, hauto])]
  by_cases hturn : R.whiteToMove s.moves = s.playerWhite
  · rw [if_neg (by simp [hturn])]
    by_cases hlegal : R.legalStep s.moves mv = true
    · rw [if_pos hlegal]
      unfold make_move
      by_cases hta : s.trainingActive = true
      · rw [if_pos (by simp [hta, hturn])]
        have hidx := hinv hta
        rw [dif_pos hidx]
        have hget : s.trainingLine.get? s.trainingIndex
            = some (s.trainingLine.get ⟨s.trainingIndex, hidx⟩) :=
          List.get?_eq_get hidx
        by_cases hmv : mv = s.trainingLine.get ⟨s.trainingIndex, hidx⟩
        · rw [if_pos hmv]
          obtain ⟨t, q1, _, _, _⟩ := commitMove_spec R ready mv true s
          constructor
          · constructor
            · intro _
              refine ⟨hturn, hlegal, fun _ => ?_⟩
              rw [hget, hmv]
            · intro _
              intro hcontra
              have hmoves := congrArg Session.moves hcontra
              rw [q1] at hmoves
              have := congrArg List.length hmoves
              simp [List.length_append] at this
          · intro e _ _ _ hsome hne
            rw [hget] at hsome
            injection hsome with hsome
            exact absurd (hmv.trans hsome) hne
        · rw [if_neg hmv]
          constructor
          · constructor
            · intro hcontra
              exact absurd rfl hcontra
            · rintro ⟨_, _, h3⟩
              have := h3 hta
              rw [hget] at this
              injection this with this
              exact absurd this.symm hmv
          · intro _ _ _ _ _ _
            rfl
      · rw [if_neg (by simp [hta])]
        obtain ⟨t, q1, _, _, _⟩ := commitMove_spec R ready mv false s
        constructor
        · constructor
          · intro _
            exact ⟨hturn, hlegal, fun h => absurd h hta⟩
          · intro _
            intro hcontra
            have hmoves := congrArg Session.moves hcontra
            rw [q1] at hmoves
            have := congrArg List.length hmoves
            simp [List.length_append] at this
        · intro e hta2
          exact absurd hta2 hta
    · rw [if_neg hlegal]
      constructor
      · constructor
        · intro hcontra; exact absurd rfl hcontra
        · rintro ⟨_, h2, _⟩; exact absurd h2 hlegal
      · intro _ _ _ h _ _; exact absurd h hlegal
  · rw [if_pos (by simp [bne_iff_ne]; exact hturn)]
    constructor
    · constructor
      · intro hcontra; exact absurd rfl hcontra
      · rintro ⟨h1, _⟩; exact absurd h1 hturn
    · intro _ _ h _ _ _; exact absurd h hturn

/-- Witness for C2 at a concrete input: submitting the legal move `5` on
the human's turn in the live manual session mutates the session. -/
theorem submit_human_move_witness :
    (submitHumanMove allLegalRules true 5 manualSession).1
      ≠ manualSession :=
  (submit_human_move_mutates_iff allLegalRules true 5 manualSession rfl rfl
      (fun h => absurd h (by decide))).1.mpr
    ⟨by decide, by decide, fun h => absurd h (by decide)⟩

/-! ### C6 — clock invariants -/

/-- Claim C6: starting from non-negative clocks, a tick keeps both clocks
non-negative and leaves the clock of the side not to move untouched; a
human submission, a drained engine message, and training auto-play never
decrease either clock (they only ever add the increment), so in every
reachable state no operation decreases the remaining seconds of the side
that is not to move and neither clock goes negative. -/
theorem clocks_nonneg_and_nonmover_preserved {M : Type} [DecidableEq M]
    (R : Rules M) (ready : Bool) (mv : M) (msg : EngineMsg M)
    (s : Session M) (hw0 : 0 ≤ s.timeWhite) (hb0 : 0 ≤ s.timeBlack) :
    (0 ≤ (tick_clock R s).timeWhite ∧ 0 ≤ (tick_clock R s).timeBlack)
    ∧ (R.whiteToMove s.moves = true →
        (tick_clock R s).timeBlack = s.timeBlack)
    ∧ (R.whiteToMove s.moves = false →
        (tick_clock R s).timeWhite = s.timeWhite)
    ∧ (s.timeWhite ≤ (submitHumanMove R ready mv s).1.timeWhite
        ∧ s.timeBlack ≤ (submitHumanMove R ready mv s).1.timeBlack)
    ∧ (s.timeWhite ≤ (process_engine_queue R msg s).1.timeWhite
        ∧ s.timeBlack ≤ (process_engine_queue R msg s).1.timeBlack)
    ∧ (s.timeWhite
        ≤ (play_training_moves_until_player_turn R ready s).1.timeWhite
        ∧ s.timeBlack
          ≤ (play_training_moves_until_player_turn R ready s).1.timeBlack) := by
  obtain ⟨_, _, _, _, _, _, _, _, _, _, t11, t12, t13, t14⟩ :=
    tick_clock_spec R s
  obtain ⟨k, _, _, _, _, _, _, _, _, p9, p10, _⟩ :=
    play_training_spec R ready s
  exact ⟨⟨t13 hw0, t14 hb0⟩, t11, t12, submit_times_mono R ready mv s,
    process_times_mono R msg s, ⟨p9, p10⟩⟩

/-- Witness for C6 at a concrete input. -/
theorem clocks_nonneg_witness :
    0 ≤ (tick_clock allLegalRules baseSession).timeWhite
    ∧ 0 ≤ (tick_clock allLegalRules baseSession).timeBlack :=
  (clocks_nonneg_and_nonmover_preserved allLegalRules true 5
    EngineMsg.error baseSession (by decide) (by decide)).1

/-! ### C4 — StartTraining with an invalid line -/

/-- Claim C4 counterexample: the requested line `[5]` is invalid under the
oracle (its only legal move is `0`); `start_new_game` reports the invalid
line, but instead of leaving the prior session untouched it has already
reset everything: the prior history `[1]` and clock `77` are replaced by a
fresh free-mode game (board `[]`, White clock `299` after the immediate
tick, training off, game active). -/
theorem invalid_line_destroys_prior_session :
    lineValid zeroOnlyRules [] badLineConfig.openingMoves = false
    ∧ priorSession.moves = [1]
    ∧ priorSession.timeWhite = 77
    ∧ (start_new_game zeroOnlyRules true badLineConfig priorSession).map
        (fun p => (p.1.moves, p.1.timeWhite, p.1.trainingActive,
          p.1.gameActive))
      = some (([] : List Nat), (299 : Int), false, true) := by
  refine ⟨by decide, rfl, rfl, ?_⟩
  decide

/-- Claim C4 (amended): the requested line is indeed validated on a fresh
scratch position, but only after the session has already been reset: when
any stored move is illegal at its position in sequence, `start_new_game`
still starts — with a fresh board, fresh clocks, training disabled — in
free (manual) mode, rather than leaving the prior session state
untouched. -/
theorem invalid_line_starts_free_game {M : Type} (R : Rules M)
    (cfg : Config M) (s : Session M) (hreq : cfg.trainingModeVar = true)
    (hne : cfg.openingMoves ≠ [])
    (hbad : lineValid R [] cfg.openingMoves = false) :
    ∃ s' n, start_new_game R true cfg s = some (s', n)
      ∧ s'.moves = [] ∧ s'.trainingActive = false ∧ s'.trainingLine = []
      ∧ s'.gameActive = true := by
  have htw : (1 : Int) < (freshSession cfg s).timeWhite := by
    have h1 := (clamp_bounds cfg.timeMinutesVar 1 180 (by omega)).1
    show (1 : Int) < 60 * clamp cfg.timeMinutesVar 1 180
    omega
  have htb : (1 : Int) < (freshSession cfg s).timeBlack := by
    have h1 := (clamp_bounds cfg.timeMinutesVar 1 180 (by omega)).1
    show (1 : Int) < 60 * clamp cfg.timeMinutesVar 1 180
    omega
  obtain ⟨f1, _, _, f4, f5, _, _, _, _, _, f11, _, _⟩ :=
    start_clock_on_fresh R (freshSession cfg s) rfl htw htb
  unfold start_new_game
  rw [if_neg (by simp), if_neg (by simp [hbad])]
  by_cases hc : cfg.colorWhite = true
  · rw [if_pos hc]
    exact ⟨_, _, rfl, f1, f4, f5, f11⟩
  · rw [if_neg hc]
    exact ⟨_, _, rfl, f1, f4, f5, f11⟩

/-- Witness for the amended C4 theorem at a concrete input. -/
theorem invalid_line_witness :
    ∃ s' n, start_new_game zeroOnlyRules true badLineConfig priorSession
        = some (s', n)
      ∧ s'.moves = [] ∧ s'.trainingActive = false ∧ s'.trainingLine = []
      ∧ s'.gameActive = true :=
  invalid_line_starts_free_game zeroOnlyRules badLineConfig priorSession
    rfl (by decide) (by decide)

/-! ### C10 — clamping at game start -/

/-- Claim C10 counterexample: with the minutes spinner at its minimum of
1, the session right after `start_new_game` returns has White at 59
seconds — below the claimed lower bound of one minute per side — because
`start_clock` ticks once synchronously inside the start. -/
theorem session_begins_below_claimed_bounds :
    (start_new_game allLegalRules true oneMinuteConfig baseSession).map
        (fun p => (p.1.timeWhite, p.1.timeBlack))
      = some ((59 : Int), (60 : Int)) := by
  decide

/-- Claim C10 (amended): the start paths do clamp minutes to [1, 180],
increment to [0, 60] and (in Auto mode) both Elo values to [800, 3000],
and both clocks are assigned 60·clamp(minutes); but the synchronous first
tick inside `start_clock` immediately costs the side to move one second,
so on return the side to move (White on the initial position) holds
60·clamp(minutes) − 1 seconds — as low as 59 — while every other value is
inside the claimed bounds. -/
theorem start_clamps_with_immediate_tick {M : Type} (R : Rules M)
    (cfg : Config M) (s : Session M) (hW0 : R.whiteToMove [] = true) :
    (cfg.trainingModeVar = false →
      ∃ s' n, start_new_game R true cfg s = some (s', n)
        ∧ s'.increment = clamp cfg.incrementVar 0 60
        ∧ 0 ≤ s'.increment ∧ s'.increment ≤ 60
        ∧ s'.timeBlack = 60 * clamp cfg.timeMinutesVar 1 180
        ∧ 60 ≤ s'.timeBlack ∧ s'.timeBlack ≤ 10800
        ∧ s'.timeWhite = s'.timeBlack - 1)
    ∧ (∃ s' n, start_auto_game R true cfg s = some (s', n)
        ∧ s'.increment = clamp cfg.incrementVar 0 60
        ∧ 0 ≤ s'.increment ∧ s'.increment ≤ 60
        ∧ s'.autoWhiteElo = clamp cfg.autoWhiteEloVar 800 3000
        ∧ 800 ≤ s'.autoWhiteElo ∧ s'.autoWhiteElo ≤ 3000
        ∧ s'.autoBlackElo = clamp cfg.autoBlackEloVar 800 3000
        ∧ 800 ≤ s'.autoBlackElo ∧ s'.autoBlackElo ≤ 3000
        ∧ s'.timeBlack = 60 * clamp cfg.timeMinutesVar 1 180
        ∧ 60 ≤ s'.timeBlack ∧ s'.timeBlack ≤ 10800
        ∧ s'.timeWhite = s'.timeBlack - 1) := by
  have hmins := clamp_bounds cfg.timeMinutesVar 1 180 (by omega)
  have hinc := clamp_bounds cfg.incrementVar 0 60 (by omega)
  have hwe := clamp_bounds cfg.autoWhiteEloVar 800 3000 (by omega)
  have hbe := clamp_bounds cfg.autoBlackEloVar 800 3000 (by omega)
  constructor
  · intro htm
    have htw : (1 : Int) < (freshSession cfg s).timeWhite := by
      show (1 : Int) < 60 * clamp cfg.timeMinutesVar 1 180
      omega
    have htb : (1 : Int) < (freshSession cfg s).timeBlack := by
      show (1 : Int) < 60 * clamp cfg.timeMinutesVar 1 180
      omega
    obtain ⟨_, _, f3, _, _, _, _, _, _, _, _, f12, _⟩ :=
      start_clock_on_fresh R (freshSession cfg s) rfl htw htb
    obtain ⟨ftw, ftb⟩ := f12 hW0
    have hib : (start_clock R (freshSession cfg s)).increment
        = clamp cfg.incrementVar 0 60 := f3
    have htb2 : (start_clock R (freshSession cfg s)).timeBlack
        = 60 * clamp cfg.timeMinutesVar 1 180 := ftb
    have htw2 : (start_clock R (freshSession cfg s)).timeWhite
        = 60 * clamp cfg.timeMinutesVar 1 180 - 1 := ftw
    unfold start_new_game
    rw [if_neg (by simp), if_neg (by simp [htm])]
    by_cases hc : cfg.colorWhite = true
    · rw [if_pos hc]
      exact ⟨_, _, rfl, hib, by omega, by omega, htb2, by omega, by omega,
        by omega⟩
    · rw [if_neg hc]
      exact ⟨_, _, rfl, hib, by omega, by omega, htb2, by omega, by omega,
        by omega⟩
  · have htw : (1 : Int) < (autoFreshSession cfg s).timeWhite := by
      show (1 : Int) < 60 * clamp cfg.timeMinutesVar 1 180
      omega
    have htb : (1 : Int) < (autoFreshSession cfg s).timeBlack := by
      show (1 : Int) < 60 * clamp cfg.timeMinutesVar 1 180
      omega
    obtain ⟨_, _, f3, _, _, _, _, _, f9, f10, _, f12, _⟩ :=
      start_clock_on_fresh R (autoFreshSession cfg s) rfl htw htb
    obtain ⟨ftw, ftb⟩ := f12 hW0
    have hib : (start_clock R (autoFreshSession cfg s)).increment
        = clamp cfg.incrementVar 0 60 := f3
    have hwe2 : (start_clock R (autoFreshSession cfg s)).autoWhiteElo
        = clamp cfg.autoWhiteEloVar 800 3000 := f9
    have hbe2 : (start_clock R (autoFreshSession cfg s)).autoBlackElo
        = clamp cfg.autoBlackEloVar 800 3000 := f10
    have htb2 : (start_clock R (autoFreshSession cfg s)).timeBlack
        = 60 * clamp cfg.timeMinutesVar 1 180 := ftb
    have htw2 : (start_clock R (autoFreshSession cfg s)).timeWhite
        = 60 * clamp cfg.timeMinutesVar 1 180 - 1 := ftw
    unfold start_auto_game
    rw [if_neg (by simp)]
    exact ⟨_, _, rfl, hib, by omega, by omega, hwe2, by omega, by omega,
      hbe2, by omega, by omega, htb2, by omega, by omega, by omega⟩

/-- Witness for the amended C10 theorem at a concrete input. -/
theorem start_clamp_bounds_witness :
    ∃ s' n, start_new_game allLegalRules true oneMinuteConfig baseSession
        = some (s', n)
      ∧ 0 ≤ s'.increment ∧ s'.increment ≤ 60
      ∧ 60 ≤ s'.timeBlack ∧ s'.timeBlack ≤ 10800 := by
  obtain ⟨s', n, h1, _, h3, h4, _, h6, h7, _⟩ :=
    (start_clamps_with_immediate_tick allLegalRules oneMinuteConfig
      baseSession (by decide)).1 rfl
  exact ⟨s', n, h1, h3, h4, h6, h7⟩
